import Mathlib

/-!
Verification of the PNG recolor application (src/App.tsx).

The embedding models:
* `hexToRgb` — the hex color parser (App.tsx lines 5–14, regex
  `^#?([a-f\d]{2})([a-f\d]{2})([a-f\d]{2})$` with flag `i`);
* the per-pixel recolor loop of `processImage` (App.tsx lines 62–82),
  with JavaScript number arithmetic modelled over ℚ (the decimal
  literals 0.299, 0.587, 0.114 denote those exact rationals) and the
  write into the `Uint8ClampedArray` `imageData.data` modelled by
  `toUint8Clamp` (clamp to [0,255], round to nearest, ties to even,
  per the ECMAScript ToUint8Clamp conversion);
* the color-format guard of `processImage` (App.tsx lines 42–48);
* the state updates of `handleFileChange` (App.tsx lines 110–128).
-/

/-- An RGB triple, the result type of `hexToRgb` (each component 0–255). -/
structure RGB where
  r : Nat
  g : Nat
  b : Nat
deriving DecidableEq

/-- `[a-f\d]` with the `i` flag: decimal digit (code points 48–57),
`a`–`f` (97–102) or `A`–`F` (65–70). -/
def isHexDigit (c : Char) : Bool :=
  (48 ≤ c.toNat && c.toNat ≤ 57) || (97 ≤ c.toNat && c.toNat ≤ 102)
    || (65 ≤ c.toNat && c.toNat ≤ 70)

/-- The numeric value of one hex digit, as `parseInt(_, 16)` assigns it
(case-insensitive). Only meaningful on characters satisfying `isHexDigit`. -/
def hexDigitVal (c : Char) : Nat :=
  if c.toNat ≤ 57 then c.toNat - 48
  else if 97 ≤ c.toNat then c.toNat - 87
  else c.toNat - 55

/-- The optional leading `#` of the regex `^#?...`. -/
def stripHash : List Char → List Char
  | '#' :: rest => rest
  | cs => cs

/-- `hexToRgb` (App.tsx lines 5–14): match
`^#?([a-f\d]{2})([a-f\d]{2})([a-f\d]{2})$` case-insensitively and decode
the three captured pairs with `parseInt(_, 16)`; `null` (here `none`) on
mismatch. -/
def hexToRgb (hex : String) : Option RGB :=
  match stripHash hex.data with
  | [c1, c2, c3, c4, c5, c6] =>
    if isHexDigit c1 && isHexDigit c2 && isHexDigit c3 && isHexDigit c4
        && isHexDigit c5 && isHexDigit c6 then
      some ⟨16 * hexDigitVal c1 + hexDigitVal c2,
            16 * hexDigitVal c3 + hexDigitVal c4,
            16 * hexDigitVal c5 + hexDigitVal c6⟩
    else none
  | _ => none

/-- Whether a string matches the pattern `^#?[0-9a-fA-F]{6}$`
(the regex of `hexToRgb`): after the optional leading `#`, exactly six
case-insensitive hex digits. -/
def matchesHexPattern (s : String) : Bool :=
  match stripHash s.data with
  | [c1, c2, c3, c4, c5, c6] =>
    isHexDigit c1 && isHexDigit c2 && isHexDigit c3 && isHexDigit c4
      && isHexDigit c5 && isHexDigit c6
  | _ => false

/-- ECMAScript ToUint8Clamp, the conversion applied on assignment into a
`Uint8ClampedArray`: clamp to [0,255], then round to nearest integer with
ties going to the even neighbour. -/
def toUint8Clamp (x : ℚ) : Nat :=
  if x ≤ 0 then 0
  else if 255 ≤ x then 255
  else if x - ⌊x⌋ < 1 / 2 then ⌊x⌋.toNat
  else if 1 / 2 < x - ⌊x⌋ then ⌊x⌋.toNat + 1
  else if ⌊x⌋ % 2 = 0 then ⌊x⌋.toNat else ⌊x⌋.toNat + 1

/-- `luminance = 0.299 * r_old + 0.587 * g_old + 0.114 * b_old`
(App.tsx line 70). -/
def luminance (r g b : Nat) : ℚ :=
  0.299 * (r : ℚ) + 0.587 * (g : ℚ) + 0.114 * (b : ℚ)

/-- `intensity = 1 - luminance / 255` (App.tsx line 74). -/
def intensity (r g b : Nat) : ℚ :=
  1 - luminance r g b / 255

/-- One output channel before the clamped-array store:
`newColorRgb.<ch> * intensity + 255 * (1 - intensity)`
(App.tsx lines 78–80). -/
def blendChannel (t : Nat) (k : ℚ) : ℚ :=
  (t : ℚ) * k + 255 * (1 - k)

/-- The body of the pixel loop (App.tsx lines 63–81) for one RGBA
quadruple: if `alpha > 0` the three color channels are replaced by the
blended values (stored through the clamped array), otherwise the pixel
is left as is; alpha is never written. -/
def recolorPixel (c : RGB) (r g b a : Nat) : List Nat :=
  if a > 0 then
    [toUint8Clamp (blendChannel c.r (intensity r g b)),
     toUint8Clamp (blendChannel c.g (intensity r g b)),
     toUint8Clamp (blendChannel c.b (intensity r g b)),
     a]
  else [r, g, b, a]

/-- The pixel loop (App.tsx lines 62–82): walk the flat RGBA array in
steps of 4, transforming each quadruple independently. A trailing
fragment of fewer than 4 entries cannot occur in an `ImageData` buffer
(its length is width*height*4) and is left unchanged. -/
def recolorData (c : RGB) : List Nat → List Nat
  | r :: g :: b :: a :: rest => recolorPixel c r g b a ++ recolorData c rest
  | rest => rest

/-- A decoded image as `processImage` sees it: the canvas dimensions
(`canvas.width`, `canvas.height`, App.tsx lines 53–54) and the flat RGBA
data array of `ctx.getImageData` (App.tsx lines 59–60). -/
structure PixelBuffer where
  width : Nat
  height : Nat
  data : List Nat
deriving DecidableEq

/-- The whole-image transform: dimensions are carried over unchanged,
the data array is rewritten by the pixel loop. -/
def recolor (c : RGB) (buf : PixelBuffer) : PixelBuffer :=
  ⟨buf.width, buf.height, recolorData c buf.data⟩

/-- The core of `processImage` (App.tsx lines 42–48 and 62–84): parse the
selected color; on parse failure set the error `Invalid color format.`
and do not touch the image; otherwise recolor the buffer. -/
def processImage (colorStr : String) (buf : PixelBuffer) :
    Except String PixelBuffer :=
  match hexToRgb colorStr with
  | none => Except.error "Invalid color format."
  | some c => Except.ok (recolor c buf)

/-- The hex digit for a value below 16, upper case
(48 = `0`, 55 + 10 = 65 = `A`). Spec-side renderer for the round-trip
property of §8 of the design document. -/
def toHexDigit (n : Nat) : Char :=
  if n < 10 then Char.ofNat (48 + n) else Char.ofNat (55 + n)

/-- Two upper-case hex digits for a byte value. -/
def byteToHex (n : Nat) : List Char :=
  [toHexDigit (n / 16), toHexDigit (n % 16)]

/-- Render an `RGB` value back as an upper-case 6-hex-digit string. -/
def rgbToHexString (c : RGB) : String :=
  ⟨byteToHex c.r ++ byteToHex c.g ++ byteToHex c.b⟩

/-- The UI state touched by `handleFileChange`: the uploaded image data
URL, the processed result data URL, and the error message — the
`originalImage`, `processedImage` and `error` states of App.tsx
lines 26–29. -/
structure AppState where
  originalImage : Option String
  processedImage : Option String
  error : Option String
deriving DecidableEq

/-- An uploaded file as `handleFileChange` sees it: its declared MIME
type (`file.type`) and its contents, as the data URL that a `FileReader`
read would produce. -/
structure UploadedFile where
  declaredType : String
  dataUrl : String
deriving DecidableEq

/-- The synchronous part of `handleFileChange` (App.tsx lines 110–128):
if a file is present and its declared type is `image/png`, clear the
error and start a `FileReader` read — the returned flag is `true`
exactly when the read (and hence the later decode) is initiated;
otherwise set the error `Please upload a valid PNG file.` and reset both
image states to `null`. The asynchronous `onload` continuation is not
part of this step. -/
def handleFileChange (file : Option UploadedFile) (s : AppState) :
    AppState × Bool :=
  match file with
  | some f =>
    if f.declaredType = "image/png" then
      (⟨s.originalImage, s.processedImage, none⟩, true)
    else
      (⟨none, none, some "Please upload a valid PNG file."⟩, false)
  | none => (⟨none, none, some "Please upload a valid PNG file."⟩, false)

/-! ## Helper lemmas -/

theorem toUint8Clamp_natCast (n : Nat) (h : n ≤ 255) :
    toUint8Clamp (n : ℚ) = n := by
  unfold toUint8Clamp
  by_cases h0 : (n : ℚ) ≤ 0
  · have hn : n = 0 := by exact_mod_cast le_antisymm h0 (by positivity)
    rw [if_pos h0, hn]
  · rw [if_neg h0]
    by_cases h255 : (255 : ℚ) ≤ (n : ℚ)
    · have hn : n = 255 := le_antisymm h (by exact_mod_cast h255)
      rw [if_pos h255, hn]
    · rw [if_neg h255, Int.floor_natCast]
      have hfrac : (n : ℚ) - ((n : ℤ) : ℚ) = 0 := by push_cast; ring
      rw [hfrac, if_pos (by norm_num)]
      simp

theorem toUint8Clamp_255 : toUint8Clamp 255 = 255 := by
  unfold toUint8Clamp
  norm_num

theorem blendChannel_one (t : Nat) : blendChannel t 1 = (t : ℚ) := by
  unfold blendChannel; ring

theorem blendChannel_zero (t : Nat) : blendChannel t 0 = 255 := by
  unfold blendChannel; ring

theorem blendChannel_white (k : ℚ) : blendChannel 255 k = 255 := by
  unfold blendChannel; push_cast; ring

theorem intensity_black : intensity 0 0 0 = 1 := by
  unfold intensity luminance; norm_num

theorem intensity_white : intensity 255 255 255 = 0 := by
  unfold intensity luminance; norm_num

/-! ## Claims about single pixels -/

/-- C1: for a pure black pixel (r = g = b = 0) with alpha > 0 and any
target color with components in [0,255], the blend weight
`intensity 0 0 0` equals 1, and the recolored pixel carries exactly the
target color in its R, G, B channels (alpha untouched). -/
theorem recolorPixel_black (c : RGB) (a : Nat)
    (hr : c.r ≤ 255) (hg : c.g ≤ 255) (hb : c.b ≤ 255) (ha : a > 0) :
    intensity 0 0 0 = 1 ∧ recolorPixel c 0 0 0 a = [c.r, c.g, c.b, a] := by
  refine ⟨intensity_black, ?_⟩
  unfold recolorPixel
  rw [if_pos ha, intensity_black, blendChannel_one, blendChannel_one,
    blendChannel_one, toUint8Clamp_natCast _ hr, toUint8Clamp_natCast _ hg,
    toUint8Clamp_natCast _ hb]

/-- Witness for C1 at the target color (10,20,30) and alpha 255. -/
theorem recolorPixel_black_witness :
    intensity 0 0 0 = 1 ∧
      recolorPixel ⟨10, 20, 30⟩ 0 0 0 255 = [10, 20, 30, 255] :=
  recolorPixel_black ⟨10, 20, 30⟩ 255 (by decide) (by decide) (by decide)
    (by decide)

/-- C2: for a pure white pixel (r = g = b = 255) with alpha > 0 and any
target color, the blend weight `intensity 255 255 255` equals 0, and the
recolored pixel is (255,255,255) regardless of the target color. -/
theorem recolorPixel_white (c : RGB) (a : Nat) (ha : a > 0) :
    intensity 255 255 255 = 0 ∧
      recolorPixel c 255 255 255 a = [255, 255, 255, a] := by
  refine ⟨intensity_white, ?_⟩
  unfold recolorPixel
  rw [if_pos ha, intensity_white, blendChannel_zero, blendChannel_zero,
    blendChannel_zero, toUint8Clamp_255]

/-- Witness for C2 at the target color (10,20,30) and alpha 7. -/
theorem recolorPixel_white_witness :
    intensity 255 255 255 = 0 ∧
      recolorPixel ⟨10, 20, 30⟩ 255 255 255 7 = [255, 255, 255, 7] :=
  recolorPixel_white ⟨10, 20, 30⟩ 7 (by decide)

/-- C3: a fully transparent pixel (alpha = 0) is left byte-identical in
all four channels, for every target color. -/
theorem recolorPixel_transparent (c : RGB) (r g b a : Nat) (ha : a = 0) :
    recolorPixel c r g b a = [r, g, b, a] := by
  subst ha
  rfl

/-- Witness for C3 at pixel (1,2,3,0) and target color (10,20,30). -/
theorem recolorPixel_transparent_witness :
    recolorPixel ⟨10, 20, 30⟩ 1 2 3 0 = [1, 2, 3, 0] :=
  recolorPixel_transparent ⟨10, 20, 30⟩ 1 2 3 0 rfl

/-- C10: with the pure white target color (255,255,255) every pixel with
alpha > 0 is mapped to (255,255,255) whatever its input channels: the
blend is constantly 255. -/
theorem recolorPixel_whiteTarget (r g b a : Nat) (ha : a > 0) :
    recolorPixel ⟨255, 255, 255⟩ r g b a = [255, 255, 255, a] := by
  unfold recolorPixel
  rw [if_pos ha]
  simp only [blendChannel_white, toUint8Clamp_255]

/-- Witness for C10 at pixel (1,2,3,4). -/
theorem recolorPixel_whiteTarget_witness :
    recolorPixel ⟨255, 255, 255⟩ 1 2 3 4 = [255, 255, 255, 4] :=
  recolorPixel_whiteTarget 1 2 3 4 (by decide)

theorem recolorPixel_length (c : RGB) (r g b a : Nat) :
    (recolorPixel c r g b a).length = 4 := by
  unfold recolorPixel
  split <;> rfl

theorem recolorPixel_alpha (c : RGB) (r g b a : Nat) :
    (recolorPixel c r g b a)[3]? = some a := by
  unfold recolorPixel
  split <;> rfl

theorem recolorData_length (c : RGB) :
    ∀ d : List Nat, (recolorData c d).length = d.length
  | [] => rfl
  | [r] => rfl
  | [r, g] => rfl
  | [r, g, b] => rfl
  | r :: g :: b :: a :: rest => by
    show (recolorPixel c r g b a ++ recolorData c rest).length = _
    rw [List.length_append, recolorPixel_length, recolorData_length c rest]
    simp only [List.length_cons]
    omega

theorem recolorData_alpha (c : RGB) :
    ∀ (d : List Nat) (i : Nat), i % 4 = 3 →
      (recolorData c d)[i]? = d[i]?
  | [], _, _ => rfl
  | [r], _, _ => rfl
  | [r, g], _, _ => rfl
  | [r, g, b], _, _ => rfl
  | r :: g :: b :: a :: rest, i, hi => by
    show (recolorPixel c r g b a ++ recolorData c rest)[i]? = _
    have hlen : (recolorPixel c r g b a).length = 4 :=
      recolorPixel_length c r g b a
    rcases Nat.lt_or_ge i 4 with h4 | h4
    · have h3 : i = 3 := by omega
      subst h3
      rw [List.getElem?_append_left (by rw [hlen]; omega), recolorPixel_alpha]
      simp
    · obtain ⟨j, rfl⟩ : ∃ j, i = j + 4 := ⟨i - 4, by omega⟩
      rw [List.getElem?_append_right (by rw [hlen]; omega), hlen]
      have hrhs : (r :: g :: b :: a :: rest)[j + 4]? = rest[j]? := by
        show ([r, g, b, a] ++ rest)[j + 4]? = rest[j]?
        rw [List.getElem?_append_right (by simp)]
        simp
      rw [hrhs]
      have hj : j + 4 - 4 = j := by omega
      rw [hj]
      exact recolorData_alpha c rest j (by omega)

/-- C4: the transform preserves the canvas width and height, the data
array length, and the alpha channel (every entry at an index ≡ 3 mod 4
of the flat RGBA array). -/
theorem recolor_frame (c : RGB) (buf : PixelBuffer) (i : Nat)
    (hi : i % 4 = 3) :
    (recolor c buf).width = buf.width ∧
      (recolor c buf).height = buf.height ∧
      (recolor c buf).data.length = buf.data.length ∧
      (recolor c buf).data[i]? = buf.data[i]? :=
  ⟨rfl, rfl, recolorData_length c buf.data, recolorData_alpha c buf.data i hi⟩

/-- Witness for C4 on a 2-pixel buffer at the alpha index 7. -/
theorem recolor_frame_witness :
    (recolor ⟨9, 8, 7⟩ ⟨2, 1, [1, 2, 3, 4, 5, 6, 7, 8]⟩).width = 2 ∧
      (recolor ⟨9, 8, 7⟩ ⟨2, 1, [1, 2, 3, 4, 5, 6, 7, 8]⟩).height = 1 ∧
      (recolor ⟨9, 8, 7⟩ ⟨2, 1, [1, 2, 3, 4, 5, 6, 7, 8]⟩).data.length =
        ([1, 2, 3, 4, 5, 6, 7, 8] : List Nat).length ∧
      (recolor ⟨9, 8, 7⟩ ⟨2, 1, [1, 2, 3, 4, 5, 6, 7, 8]⟩).data[7]? =
        ([1, 2, 3, 4, 5, 6, 7, 8] : List Nat)[7]? :=
  recolor_frame ⟨9, 8, 7⟩ ⟨2, 1, [1, 2, 3, 4, 5, 6, 7, 8]⟩ 7 (by decide)

/-- C8: with all input channels and the target channel in [0,255], the
luminance is in [0,255], the blend weight `intensity` is in [0,1], and
the blended channel is in [0,255], so the clamped store never actually
clamps. -/
theorem blend_in_range (r g b t : Nat)
    (hr : r ≤ 255) (hg : g ≤ 255) (hb : b ≤ 255) (ht : t ≤ 255) :
    0 ≤ luminance r g b ∧ luminance r g b ≤ 255 ∧
      0 ≤ intensity r g b ∧ intensity r g b ≤ 1 ∧
      0 ≤ blendChannel t (intensity r g b) ∧
      blendChannel t (intensity r g b) ≤ 255 := by
  have hr' : (r : ℚ) ≤ 255 := by exact_mod_cast hr
  have hg' : (g : ℚ) ≤ 255 := by exact_mod_cast hg
  have hb' : (b : ℚ) ≤ 255 := by exact_mod_cast hb
  have ht' : (t : ℚ) ≤ 255 := by exact_mod_cast ht
  have hr0 : (0 : ℚ) ≤ (r : ℚ) := Nat.cast_nonneg r
  have hg0 : (0 : ℚ) ≤ (g : ℚ) := Nat.cast_nonneg g
  have hb0 : (0 : ℚ) ≤ (b : ℚ) := Nat.cast_nonneg b
  have ht0 : (0 : ℚ) ≤ (t : ℚ) := Nat.cast_nonneg t
  have hL0 : 0 ≤ luminance r g b := by unfold luminance; linarith
  have hL255 : luminance r g b ≤ 255 := by unfold luminance; linarith
  have hk0 : 0 ≤ intensity r g b := by unfold intensity; linarith
  have hk1 : intensity r g b ≤ 1 := by unfold intensity; linarith
  refine ⟨hL0, hL255, hk0, hk1, ?_, ?_⟩
  · unfold blendChannel
    nlinarith [mul_nonneg ht0 hk0]
  · unfold blendChannel
    nlinarith [mul_nonneg (sub_nonneg.mpr ht') hk0]

/-- Witness for C8 at pixel channels (10,20,30) and target channel 100. -/
theorem blend_in_range_witness :
    0 ≤ luminance 10 20 30 ∧ luminance 10 20 30 ≤ 255 ∧
      0 ≤ intensity 10 20 30 ∧ intensity 10 20 30 ≤ 1 ∧
      0 ≤ blendChannel 100 (intensity 10 20 30) ∧
      blendChannel 100 (intensity 10 20 30) ≤ 255 :=
  blend_in_range 10 20 30 100 (by decide) (by decide) (by decide) (by decide)

theorem recolorData_single (c : RGB) (r g b a : Nat) :
    recolorData c [r, g, b, a] = recolorPixel c r g b a := by
  show recolorPixel c r g b a ++ recolorData c [] = recolorPixel c r g b a
  simp [recolorData]

/-- First pass of the idempotence check: a single black opaque pixel,
target red, comes out pure red. -/
theorem recolor_red_once :
    recolor ⟨255, 0, 0⟩ ⟨1, 1, [0, 0, 0, 255]⟩ =
      ⟨1, 1, [255, 0, 0, 255]⟩ := by
  unfold recolor
  rw [recolorData_single]
  norm_num [recolorPixel, intensity, luminance, blendChannel, toUint8Clamp,
    Int.toNat_ofNat]

/-- Second pass of the idempotence check: recoloring the already-red
pixel blends toward white (luminance of pure red is 76.245), giving
(255,76,76). -/
theorem recolor_red_twice :
    recolor ⟨255, 0, 0⟩ ⟨1, 1, [255, 0, 0, 255]⟩ =
      ⟨1, 1, [255, 76, 76, 255]⟩ := by
  unfold recolor
  rw [recolorData_single]
  norm_num [recolorPixel, intensity, luminance, blendChannel, toUint8Clamp]
  all_goals decide

/-- C9: the transform is not idempotent — on a single black opaque pixel
with target red, the second application does not reproduce the
first-pass output. -/
theorem recolor_not_idempotent :
    recolor ⟨255, 0, 0⟩ (recolor ⟨255, 0, 0⟩ ⟨1, 1, [0, 0, 0, 255]⟩) ≠
      recolor ⟨255, 0, 0⟩ ⟨1, 1, [0, 0, 0, 255]⟩ := by
  rw [recolor_red_once, recolor_red_twice]
  decide

theorem hexDigitVal_lt_16 (c : Char) (h : isHexDigit c = true) :
    hexDigitVal c < 16 := by
  unfold isHexDigit at h
  simp only [Bool.or_eq_true, Bool.and_eq_true, decide_eq_true_eq] at h
  unfold hexDigitVal
  split_ifs <;> omega

theorem toHexDigit_toUpper (c : Char) (h : isHexDigit c = true) :
    toHexDigit (hexDigitVal c) = c.toUpper := by
  unfold isHexDigit at h
  simp only [Bool.or_eq_true, Bool.and_eq_true, decide_eq_true_eq] at h
  have hc : Char.ofNat c.toNat = c := Char.ofNat_toNat c
  rw [← hc]
  obtain ⟨n, hn⟩ : ∃ n, c.toNat = n := ⟨c.toNat, rfl⟩
  rw [hn] at h ⊢
  have key : ∀ m, m < 128 →
      ((48 ≤ m ∧ m ≤ 57) ∨ (97 ≤ m ∧ m ≤ 102) ∨ (65 ≤ m ∧ m ≤ 70)) →
      toHexDigit (hexDigitVal (Char.ofNat m)) = (Char.ofNat m).toUpper := by
    decide
  exact key n (by omega) (by tauto)

theorem byteToHex_pair (a b : Char) (ha : isHexDigit a = true)
    (hb : isHexDigit b = true) :
    byteToHex (16 * hexDigitVal a + hexDigitVal b) =
      [a.toUpper, b.toUpper] := by
  have hva := hexDigitVal_lt_16 a ha
  have hvb := hexDigitVal_lt_16 b hb
  unfold byteToHex
  have h1 : (16 * hexDigitVal a + hexDigitVal b) / 16 = hexDigitVal a := by
    omega
  have h2 : (16 * hexDigitVal a + hexDigitVal b) % 16 = hexDigitVal b := by
    omega
  rw [h1, h2, toHexDigit_toUpper a ha, toHexDigit_toUpper b hb]

theorem hexToRgb_eq_some (s : String) (c1 c2 c3 c4 c5 c6 : Char)
    (heq : stripHash s.data = [c1, c2, c3, c4, c5, c6])
    (hall : (isHexDigit c1 && isHexDigit c2 && isHexDigit c3 &&
      isHexDigit c4 && isHexDigit c5 && isHexDigit c6) = true) :
    hexToRgb s = some ⟨16 * hexDigitVal c1 + hexDigitVal c2,
                       16 * hexDigitVal c3 + hexDigitVal c4,
                       16 * hexDigitVal c5 + hexDigitVal c6⟩ := by
  unfold hexToRgb
  rw [heq]
  exact if_pos hall

/-- C6: every string matching `^#?[0-9a-fA-F]{6}$` parses successfully,
the three hex digit pairs (after the optional `#`) becoming the R, G and
B components, and rendering the parsed color back as an upper-case hex
string gives exactly the upper-cased input with the `#` stripped. -/
theorem hexToRgb_roundTrip (s : String) (h : matchesHexPattern s = true) :
    ∃ col : RGB, hexToRgb s = some col ∧
      (∃ c1 c2 c3 c4 c5 c6 : Char,
        stripHash s.data = [c1, c2, c3, c4, c5, c6] ∧
        col = ⟨16 * hexDigitVal c1 + hexDigitVal c2,
               16 * hexDigitVal c3 + hexDigitVal c4,
               16 * hexDigitVal c5 + hexDigitVal c6⟩) ∧
      (rgbToHexString col).data = (stripHash s.data).map Char.toUpper := by
  unfold matchesHexPattern at h
  split at h
  case h_1 c1 c2 c3 c4 c5 c6 heq =>
    have hall := h
    simp only [Bool.and_eq_true] at h
    obtain ⟨⟨⟨⟨⟨h1, h2⟩, h3⟩, h4⟩, h5⟩, h6⟩ := h
    refine ⟨⟨16 * hexDigitVal c1 + hexDigitVal c2,
             16 * hexDigitVal c3 + hexDigitVal c4,
             16 * hexDigitVal c5 + hexDigitVal c6⟩, ?_, ?_, ?_⟩
    · exact hexToRgb_eq_some s c1 c2 c3 c4 c5 c6 heq hall
    · exact ⟨c1, c2, c3, c4, c5, c6, heq, rfl⟩
    · unfold rgbToHexString
      rw [heq]
      show (byteToHex (16 * hexDigitVal c1 + hexDigitVal c2) ++
        byteToHex (16 * hexDigitVal c3 + hexDigitVal c4) ++
        byteToHex (16 * hexDigitVal c5 + hexDigitVal c6)) = _
      rw [byteToHex_pair c1 c2 h1 h2, byteToHex_pair c3 c4 h3 h4,
        byteToHex_pair c5 c6 h5 h6]
      rfl
  case h_2 => exact absurd h (by simp)

/-- Witness for C6 at the default selected color string of the app. -/
theorem hexToRgb_roundTrip_witness :
    ∃ col : RGB, hexToRgb "#4ade80" = some col ∧
      (∃ c1 c2 c3 c4 c5 c6 : Char,
        stripHash ("#4ade80" : String).data = [c1, c2, c3, c4, c5, c6] ∧
        col = ⟨16 * hexDigitVal c1 + hexDigitVal c2,
               16 * hexDigitVal c3 + hexDigitVal c4,
               16 * hexDigitVal c5 + hexDigitVal c6⟩) ∧
      (rgbToHexString col).data =
        (stripHash ("#4ade80" : String).data).map Char.toUpper :=
  hexToRgb_roundTrip "#4ade80" (by decide)

/-- C7: every string that does not match the pattern is rejected by the
parser, and `processImage` then reports `Invalid color format.` without
running the transform. -/
theorem hexToRgb_invalid (s : String) (buf : PixelBuffer)
    (h : matchesHexPattern s = false) :
    hexToRgb s = none ∧
      processImage s buf = Except.error "Invalid color format." := by
  have hn : hexToRgb s = none := by
    unfold hexToRgb
    split
    case h_1 c1 c2 c3 c4 c5 c6 heq =>
      unfold matchesHexPattern at h
      rw [heq] at h
      replace h : (isHexDigit c1 && isHexDigit c2 && isHexDigit c3 &&
          isHexDigit c4 && isHexDigit c5 && isHexDigit c6) = false := h
      rw [if_neg (by rw [h]; exact Bool.false_ne_true)]
    case h_2 => rfl
  refine ⟨hn, ?_⟩
  unfold processImage
  rw [hn]

/-- Witness for C7 at the 3-digit short hex string `abc`. -/
theorem hexToRgb_invalid_witness :
    hexToRgb "abc" = none ∧
      processImage "abc" ⟨1, 1, [0, 0, 0, 255]⟩ =
        Except.error "Invalid color format." :=
  hexToRgb_invalid "abc" ⟨1, 1, [0, 0, 0, 255]⟩ (by decide)

/-- C5 counterexample: uploading a file whose declared type is
`image/jpeg` over a previously displayed result does NOT leave the prior
displayed result unchanged — `handleFileChange` resets `processedImage`
(and `originalImage`) to `null` (App.tsx lines 125–126), so the
previously displayed result disappears. -/
theorem handleFileChange_jpeg_clears :
    (handleFileChange (some ⟨"image/jpeg", "jpegDataUrl"⟩)
        ⟨some "prior.png", some "priorResult.png", none⟩).1.processedImage ≠
      (⟨some "prior.png", some "priorResult.png", none⟩ :
        AppState).processedImage := by
  decide

/-- C5 (amended): for any uploaded file whose declared type is not
`image/png`, the format error is surfaced, no read/decode is initiated,
and both the uploaded image and the displayed result are cleared (rather
than left unchanged, as the original claim stated). -/
theorem handleFileChange_nonPng (s : AppState) (f : UploadedFile)
    (h : f.declaredType ≠ "image/png") :
    (handleFileChange (some f) s).1.error =
        some "Please upload a valid PNG file." ∧
      (handleFileChange (some f) s).2 = false ∧
      (handleFileChange (some f) s).1.originalImage = none ∧
      (handleFileChange (some f) s).1.processedImage = none := by
  simp only [handleFileChange]
  rw [if_neg h]
  exact ⟨rfl, rfl, rfl, rfl⟩

/-- Witness for the amended C5 at a `image/jpeg` upload over a
previously displayed result. -/
theorem handleFileChange_nonPng_witness :
    (handleFileChange (some ⟨"image/jpeg", "jpegDataUrl"⟩)
        ⟨some "prior.png", some "priorResult.png", none⟩).1.error =
        some "Please upload a valid PNG file." ∧
      (handleFileChange (some ⟨"image/jpeg", "jpegDataUrl"⟩)
        ⟨some "prior.png", some "priorResult.png", none⟩).2 = false ∧
      (handleFileChange (some ⟨"image/jpeg", "jpegDataUrl"⟩)
        ⟨some "prior.png", some "priorResult.png", none⟩).1.originalImage =
        none ∧
      (handleFileChange (some ⟨"image/jpeg", "jpegDataUrl"⟩)
        ⟨some "prior.png", some "priorResult.png", none⟩).1.processedImage =
        none :=
  handleFileChange_nonPng ⟨some "prior.png", some "priorResult.png", none⟩
    ⟨"image/jpeg", "jpegDataUrl"⟩ (by decide)
